import Mathlib

/-!
Verification of the documents_processor extraction core.

This file gives a shallow embedding, in Lean, of the pure logic of
`documents_processor.py`: filename sanitization (`_safe_name`), archive
member path sanitization (`_safe_join_path`), the unique image naming
service (`_generate_unique_image_name`), the generic ZIP/RAR unpacker
loops (`_process_generic_zip` / `_process_generic_rar`), the page-limit
resolution (`_get_page_limit` and its use in `_process_pdf`), and the
`Document.__init__` path normalization.  Filesystem effects are made
explicit: the set of already-existing paths is a `List String` parameter,
the files written by a run are accumulated in the result, and recursive
processing of an extracted member is an abstract function
`String → Option ChildOut` (`none` models an exception raised by the
nested processing, which the source catches).

Python strings are modelled as Lean `String` (manipulated through their
`.data : List Char`); Python `str.isalnum` is modelled as ASCII
`Char.isAlphanum`, which agrees with it on all inputs relevant here
(`'/'`, `'\\'`, `'.'`, `'_'`, `'-'` are non-alphanumeric in both).
-/

namespace DocProc

/-! ## Basic string helpers (models of `os.path` / `str` operations) -/

/-- Characters kept by `_safe_name`: alphanumeric, underscore, hyphen. -/
def isSafeChar (c : Char) : Bool :=
  c.isAlphanum || c = '_' || c = '-'

/-- Characters kept in the final path segment by `_safe_join_path`:
additionally keeps dots so the extension survives. -/
def isLastSegChar (c : Char) : Bool :=
  c.isAlphanum || c = '_' || c = '-' || c = '.'

/-- Model of `_safe_name`: keep only alphanumerics, underscore, hyphen. -/
def safe_name (s : String) : String :=
  ⟨s.data.filter isSafeChar⟩

/-- Model of `str.lower` (ASCII). -/
def toLowerStr (s : String) : String :=
  ⟨s.data.map Char.toLower⟩

/-- Model of `str.rstrip()`: drop trailing whitespace. -/
def rstripStr (s : String) : String :=
  ⟨(s.data.reverse.dropWhile Char.isWhitespace).reverse⟩

/-- Model of POSIX `os.path.basename`: the part after the last slash. -/
def basenameStr (p : String) : String :=
  ⟨(p.data.reverse.takeWhile (fun c => c ≠ '/')).reverse⟩

/-- Extension of a basename, per CPython `posixpath.splitext`: the suffix
from the last dot, provided some earlier character of the basename is not
a dot (so pure leading-dot names have no extension). -/
def extOfBaseL (l : List Char) : List Char :=
  let rev := l.reverse
  let revExt := rev.takeWhile (fun c => c ≠ '.')
  match rev.dropWhile (fun c => c ≠ '.') with
  | [] => []
  | _ :: pre => if pre.any (fun c => c ≠ '.') then '.' :: revExt.reverse else []

/-- Model of `os.path.splitext` on a (possibly slash-containing) path. -/
def splitext (p : String) : String × String :=
  let ext : String := ⟨extOfBaseL (basenameStr p).data⟩
  (⟨p.data.take (p.data.length - ext.data.length)⟩, ext)

/-- One step of POSIX `os.path.join`: how one further component is joined. -/
def pyJoin1 (p b : String) : String :=
  if b.data.head? = some '/' then b
  else if p = "" ∨ p.data.getLast? = some '/' then p ++ b
  else p ++ "/" ++ b

/-- Model of `os.path.join(root, *parts)` (POSIX). -/
def osJoin (root : String) (parts : List String) : String :=
  parts.foldl pyJoin1 root

/-- Model of Python `str.split("/")` (as used on the normalized member
name): split into (possibly empty) segments at every slash. -/
def splitSlashes : List Char → List (List Char)
  | [] => [[]]
  | c :: rest =>
    match splitSlashes rest with
    | [] => [[]]
    | s :: ss => if c = '/' then [] :: s :: ss else (c :: s) :: ss

/-- The per-segment sanitization loop of `_safe_join_path`: drop empty,
`.` and `..` segments; sanitize intermediate segments with `_safe_name`
and the final segment keeping dots. -/
def sanitizeSegs : List String → List String
  | [] => []
  | [p] =>
    if p = "" ∨ p = "." ∨ p = ".." then []
    else [⟨p.data.filter isLastSegChar⟩]
  | p :: q :: rest =>
    if p = "" ∨ p = "." ∨ p = ".." then sanitizeSegs (q :: rest)
    else safe_name p :: sanitizeSegs (q :: rest)

/-- Model of `_safe_join_path(root, arcname)`: normalize backslashes to
slashes, strip leading slashes, split on slashes, sanitize segments, and
join under `root` (the directory-creation side effect is ignored). -/
def safe_join_path (root arcname : String) : String :=
  let rel : List Char :=
    (arcname.data.map (fun c => if c = '\\' then '/' else c)).dropWhile
      (fun c => c = '/')
  let comps : List String := (splitSlashes rel).map (fun l => (⟨l⟩ : String))
  let parts := sanitizeSegs comps
  if parts = [] then root else osJoin root parts

/-! ## Generic lemmas about the helpers -/

theorem string_data_append (a b : String) : (a ++ b).data = a.data ++ b.data := rfl

theorem listPref_trans {α : Type} {a b c : List α} (h1 : a <+: b) (h2 : b <+: c) :
    a <+: c := by
  obtain ⟨t1, rfl⟩ := h1
  obtain ⟨t2, rfl⟩ := h2
  exact ⟨t1 ++ t2, (List.append_assoc a t1 t2).symm⟩

/-- Every segment produced by `sanitizeSegs` contains no slash. -/
theorem sanitizeSegs_no_slash :
    ∀ comps : List String, ∀ s ∈ sanitizeSegs comps, '/' ∉ s.data := by
  intro comps
  induction comps with
  | nil => intro s hs; simp [sanitizeSegs] at hs
  | cons p rest ih =>
    intro s hs
    cases rest with
    | nil =>
      simp only [sanitizeSegs] at hs
      split at hs
      · simp at hs
      · simp only [List.mem_singleton] at hs
        subst hs
        intro hmem
        have := List.of_mem_filter hmem
        simp [isLastSegChar] at this
    | cons q rest2 =>
      simp only [sanitizeSegs] at hs
      split at hs
      · exact ih s hs
      · rcases List.mem_cons.mp hs with h | h
        · subst h
          intro hmem
          have := List.of_mem_filter hmem
          simp [isSafeChar] at this
        · exact ih s h

/-- Joining components that do not start with a slash only ever appends,
so the accumulated path keeps its prefix. -/
theorem osJoin_keeps_root :
    ∀ (parts : List String) (p : String),
      (∀ s ∈ parts, '/' ∉ s.data) → p.data <+: (osJoin p parts).data := by
  intro parts
  induction parts with
  | nil => intro p _; exact ⟨[], by simp [osJoin]⟩
  | cons b rest ih =>
    intro p hns
    have hb : '/' ∉ b.data := hns b (by simp)
    have hstep : p.data <+: (pyJoin1 p b).data := by
      unfold pyJoin1
      split
      · rename_i hhead
        exfalso
        cases hd : b.data with
        | nil => simp [hd] at hhead
        | cons c cs =>
          rw [hd] at hhead
          simp at hhead
          subst hhead
          exact hb (by simp [hd])
      · split
        · exact ⟨b.data, (string_data_append p b).symm⟩
        · refine ⟨"/".data ++ b.data, ?_⟩
          rw [string_data_append, string_data_append, List.append_assoc]
      -- both branches append to `p`
    have hrest : (pyJoin1 p b).data <+: (osJoin (pyJoin1 p b) rest).data :=
      ih (pyJoin1 p b) (fun s hs => hns s (by simp [hs]))
    have : osJoin p (b :: rest) = osJoin (pyJoin1 p b) rest := rfl
    rw [this]
    exact listPref_trans hstep hrest

/-- C1. For every extraction root and every archive member name (including
names with `../` segments, absolute prefixes, or backslash separators),
the path produced by `_safe_join_path` starts with the extraction root:
dangerous segments are dropped and sanitized segments are only ever
appended under the root, so no member escapes its extraction root. -/
theorem c1_safe_join_path_starts_with_root (root arcname : String) :
    root.data <+: (safe_join_path root arcname).data := by
  unfold safe_join_path
  dsimp only
  split
  · exact ⟨[], by simp⟩
  · exact osJoin_keeps_root _ root (fun s hs => sanitizeSegs_no_slash _ s hs)

/-! ## Unique naming service (`_generate_unique_image_name`) -/

/-- Decimal digit character for a value below ten. -/
def digitChar (n : Nat) : Char := Char.ofNat (48 + n)

/-- Decimal digits of `n`, most significant first (fuel-based so that it
reduces structurally; `natToDigits` supplies sufficient fuel). -/
def natToDigitsAux : Nat → Nat → List Char
  | 0, _ => []
  | fuel + 1, n =>
    if n < 10 then [digitChar n]
    else natToDigitsAux fuel (n / 10) ++ [digitChar (n % 10)]

/-- Decimal digits of `n`, as Python `str(n)` for nonnegative `n`. -/
def natToDigits (n : Nat) : List Char := natToDigitsAux (n + 1) n

/-- Numeric value of a digit string (inverse of `natToDigits`). -/
def digitsVal (l : List Char) : Nat :=
  l.foldl (fun a c => 10 * a + (c.toNat - 48)) 0

/-- Model of Python `f"{c:03d}"`: zero-pad the decimal form to at least
three characters. -/
def padCounter (c : Nat) : String :=
  ⟨(if c < 10 then ['0', '0'] else if c < 100 then ['0'] else []) ++ natToDigits c⟩

/-- Model of `_generate_unique_image_name`.  The process-wide mutable
counter is made explicit: the call consumes the current counter value and
returns the generated name together with the incremented counter.  The
second-precision timestamp (`datetime.now().strftime("%Y%m%d_%H%M%S")`,
always fifteen characters) is an explicit input. -/
def generate_unique_image_name (source_type original_name extension ts : String)
    (counter : Nat) : String × Nat :=
  let c := counter + 1
  (source_type ++ "_" ++ ts ++ "_" ++ padCounter c ++ "_" ++
    rstripStr (safe_name original_name) ++ "." ++ extension, c)

/-- One call to the naming service: classification tag, original base
name, target extension, and the wall-clock timestamp at call time. -/
structure NameCall where
  tag : String
  base : String
  ext : String
  ts : String
deriving DecidableEq

/-- A sequence of naming-service calls in one process, threading the
shared counter; returns the generated names and the final counter. -/
def runNaming : List NameCall → Nat → List String × Nat
  | [], c => ([], c)
  | k :: rest, c =>
    let r := generate_unique_image_name k.tag k.base k.ext k.ts c
    let rr := runNaming rest r.2
    (r.1 :: rr.1, rr.2)

/-! ### Arithmetic facts about the digit rendering -/

theorem digitChar_toNat {m : Nat} (hm : m < 10) : (digitChar m).toNat = 48 + m := by
  interval_cases m <;> decide

theorem digitChar_isDigit {m : Nat} (hm : m < 10) : (digitChar m).isDigit = true := by
  interval_cases m <;> decide

theorem digitsVal_natToDigitsAux :
    ∀ fuel n : Nat, n < fuel → digitsVal (natToDigitsAux fuel n) = n := by
  intro fuel
  induction fuel with
  | zero => intro n h; omega
  | succ fuel ih =>
    intro n hn
    simp only [natToDigitsAux]
    split
    · rename_i h10
      simp [digitsVal, digitChar_toNat h10]
    · rename_i h10
      push_neg at h10
      have hdiv : n / 10 < fuel := by
        have h1 : n / 10 < n := Nat.div_lt_self (by omega) (by omega)
        omega
      have hmod : n % 10 < 10 := Nat.mod_lt _ (by omega)
      have hrec := ih (n / 10) hdiv
      simp only [digitsVal, List.foldl_append, List.foldl_cons, List.foldl_nil]
      simp only [digitsVal] at hrec
      rw [hrec, digitChar_toNat hmod]
      have := Nat.div_add_mod n 10
      omega

theorem natToDigitsAux_digits :
    ∀ fuel n : Nat, ∀ c ∈ natToDigitsAux fuel n, c.isDigit = true := by
  intro fuel
  induction fuel with
  | zero => intro n c hc; simp [natToDigitsAux] at hc
  | succ fuel ih =>
    intro n c hc
    simp only [natToDigitsAux] at hc
    split at hc
    · rename_i h10
      simp only [List.mem_singleton] at hc
      subst hc
      exact digitChar_isDigit h10
    · rename_i h10
      rcases List.mem_append.mp hc with h | h
      · exact ih _ c h
      · simp only [List.mem_singleton] at h
        subst h
        exact digitChar_isDigit (Nat.mod_lt _ (by omega))

theorem padCounter_digits (c : Nat) :
    ∀ ch ∈ (padCounter c).data, ch.isDigit = true := by
  intro ch hch
  simp only [padCounter] at hch
  rcases List.mem_append.mp hch with h | h
  · have hz : ch = '0' := by split at h <;> simp_all
    subst hz
    decide
  · exact natToDigitsAux_digits _ _ ch h

theorem digitsVal_cons_zero (l : List Char) : digitsVal ('0' :: l) = digitsVal l := by
  have h : 10 * 0 + ('0'.toNat - 48) = 0 := by decide
  simp [digitsVal, List.foldl_cons, h]

theorem digitsVal_padCounter (c : Nat) : digitsVal (padCounter c).data = c := by
  have hval : digitsVal (natToDigits c) = c :=
    digitsVal_natToDigitsAux (c + 1) c (by omega)
  simp only [padCounter, natToDigits]
  split
  · rw [show ('0' :: '0' :: ([] : List Char)) ++ natToDigitsAux (c + 1) c =
      '0' :: '0' :: natToDigitsAux (c + 1) c from rfl,
      digitsVal_cons_zero, digitsVal_cons_zero]
    exact hval
  · split
    · rw [show ('0' :: ([] : List Char)) ++ natToDigitsAux (c + 1) c =
        '0' :: natToDigitsAux (c + 1) c from rfl, digitsVal_cons_zero]
      exact hval
    · simpa using hval

theorem padCounter_inj {a b : Nat} (h : padCounter a = padCounter b) : a = b := by
  have := congrArg (fun s => digitsVal s.data) h
  simpa [digitsVal_padCounter] using this

/-- Two all-digit blocks terminated by an underscore can be cancelled:
the underscore acts as an unambiguous separator. -/
theorem digits_underscore_cancel :
    ∀ d1 d2 r1 r2 : List Char,
      (∀ c ∈ d1, c.isDigit = true) → (∀ c ∈ d2, c.isDigit = true) →
      d1 ++ '_' :: r1 = d2 ++ '_' :: r2 → d1 = d2 ∧ r1 = r2 := by
  intro d1
  induction d1 with
  | nil =>
    intro d2 r1 r2 _ h2 heq
    cases d2 with
    | nil => simpa using heq
    | cons b d2t =>
      exfalso
      simp only [List.nil_append, List.cons_append, List.cons.injEq] at heq
      have hb := h2 b (by simp)
      rw [← heq.1] at hb
      simp [Char.isDigit] at hb
  | cons a d1t ih =>
    intro d2 r1 r2 h1 h2 heq
    cases d2 with
    | nil =>
      exfalso
      simp only [List.nil_append, List.cons_append, List.cons.injEq] at heq
      have ha := h1 a (by simp)
      rw [heq.1] at ha
      simp [Char.isDigit] at ha
    | cons b d2t =>
      simp only [List.cons_append, List.cons.injEq] at heq
      obtain ⟨hab, htail⟩ := heq
      obtain ⟨hd, hr⟩ := ih d2t r1 r2 (fun c hc => h1 c (by simp [hc]))
        (fun c hc => h2 c (by simp [hc])) htail
      exact ⟨by rw [hab, hd], hr⟩

theorem underscore_data : ("_" : String).data = ['_'] := rfl

theorem dot_data : ("." : String).data = ['.'] := rfl

/-- Core injectivity of the generated names: with a common tag, equal
fifteen-character timestamps or not, two calls with different counter
values always generate different names. -/
theorem gen_name_ne (tag ts1 ts2 n1 n2 e1 e2 : String) (c1 c2 : Nat)
    (h1 : ts1.data.length = 15) (h2 : ts2.data.length = 15) (hc : c1 ≠ c2) :
    (generate_unique_image_name tag n1 e1 ts1 c1).1 ≠
      (generate_unique_image_name tag n2 e2 ts2 c2).1 := by
  intro heq
  simp only [generate_unique_image_name] at heq
  have hd := congrArg String.data heq
  simp only [string_data_append, underscore_data, dot_data, List.cons_append,
    List.nil_append, List.append_assoc] at hd
  have hd2 := List.append_cancel_left hd
  injection hd2 with hu2 hd2b
  have hts := List.append_inj hd2b (by rw [h1, h2])
  injection hts.2 with hu3 hd3
  have hcancel := digits_underscore_cancel _ _ _ _
    (padCounter_digits (c1 + 1)) (padCounter_digits (c2 + 1)) hd3
  have hpad : padCounter (c1 + 1) = padCounter (c2 + 1) := by
    apply String.ext
    exact hcancel.1
  have := padCounter_inj hpad
  omega

/-- Every name produced by a run comes from some call of the sequence,
invoked at an input counter value at least the starting counter. -/
theorem runNaming_mem :
    ∀ (calls : List NameCall) (c0 : Nat) (s : String),
      s ∈ (runNaming calls c0).1 →
      ∃ k, k ∈ calls ∧ ∃ c, c0 ≤ c ∧
        s = (generate_unique_image_name k.tag k.base k.ext k.ts c).1 := by
  intro calls
  induction calls with
  | nil => intro c0 s hs; simp [runNaming] at hs
  | cons k rest ih =>
    intro c0 s hs
    simp only [runNaming, List.mem_cons] at hs
    rcases hs with h | h
    · exact ⟨k, by simp, c0, le_refl c0, h⟩
    · obtain ⟨k2, hk2, c, hc, hval⟩ := ih (c0 + 1) s h
      exact ⟨k2, by simp [hk2], c, by omega, hval⟩

/-- C2 (amended). For any sequence of naming-service calls in one process
that all use the same source-classification tag (with the second-precision
timestamps of their fixed fifteen-character format), the returned
filenames are pairwise distinct, and the shared counter is incremented on
every call (final counter = initial counter + number of calls).  Each name
has the form tag_timestamp_counter_sanitizedname.extension with the
counter zero-padded to at least three digits. -/
theorem c2_amended_unique_naming (tag : String) (calls : List NameCall) (c0 : Nat)
    (htag : ∀ k ∈ calls, k.tag = tag)
    (hts : ∀ k ∈ calls, k.ts.data.length = 15) :
    (runNaming calls c0).1.Pairwise (fun a b => a ≠ b) ∧
      (runNaming calls c0).2 = c0 + calls.length := by
  induction calls generalizing c0 with
  | nil => simp [runNaming]
  | cons k rest ih =>
    have htagk : k.tag = tag := htag k (by simp)
    have htsk : k.ts.data.length = 15 := hts k (by simp)
    have hsnd : (generate_unique_image_name k.tag k.base k.ext k.ts c0).2 = c0 + 1 := rfl
    obtain ⟨ihp, ihc⟩ := ih (c0 + 1)
      (fun k2 hk2 => htag k2 (by simp [hk2]))
      (fun k2 hk2 => hts k2 (by simp [hk2]))
    constructor
    · simp only [runNaming, hsnd, List.pairwise_cons]
      refine ⟨?_, ihp⟩
      intro s hs
      obtain ⟨k2, hk2, c, hc, rfl⟩ := runNaming_mem rest (c0 + 1) s hs
      have htagk2 : k2.tag = tag := htag k2 (by simp [hk2])
      have htsk2 : k2.ts.data.length = 15 := hts k2 (by simp [hk2])
      rw [htagk, htagk2]
      exact gen_name_ne tag k.ts k2.ts k.base k2.base k.ext k2.ext c0 c
        htsk htsk2 (by omega)
    · simp only [runNaming, hsnd, ihc, List.length_cons]
      omega

/-- Witness for C2 (amended): two same-tag calls in different seconds
produce distinct names and advance the counter twice. -/
theorem c2_amended_unique_naming_witness :
    (runNaming [⟨"pdf", "scan", "png", "20250101_120000"⟩,
        ⟨"pdf", "scan", "png", "20250101_120001"⟩] 0).1.Pairwise
        (fun a b => a ≠ b) ∧
      (runNaming [⟨"pdf", "scan", "png", "20250101_120000"⟩,
          ⟨"pdf", "scan", "png", "20250101_120001"⟩] 0).2 = 0 + 2 :=
  c2_amended_unique_naming "pdf" _ 0 (by decide) (by decide)

/-- C2 counterexample: with attacker-chosen tags (the tag is interpolated
unsanitized), two calls inside the same second can return the identical
filename, so the claim as stated (arbitrary tags) is false. -/
theorem c2_counterexample_naming_collision :
    ¬ ((runNaming [⟨"t", "a_20250101_120000_002_b", "e", "20250101_120000"⟩,
        ⟨"t_20250101_120000_001_a", "b", "e", "20250101_120000"⟩] 0).1.Pairwise
        (fun a b => a ≠ b)) := by decide

/-! ## Generic archive unpacker (`_process_generic_zip` / `_process_generic_rar`)

The unpacker is modelled one invocation at a time.  The container is a
list of members (name, declared size, and a flag saying whether reading
its bytes raises, modelling data corruption discovered mid-enumeration);
`openOk` models whether opening/listing the container succeeds at all.
The pre-existing filesystem is the list `fs0` of existing paths, and
recursive processing of an extracted member is the abstract function
`child : String → Option ChildOut` (`none` models an exception raised by
the nested `Document.process()` call, which the source catches and only
logs). -/

def MAX_ZIP_SIZE : Nat := 100 * 1024 * 1024
def MAX_ZIP_FILES : Nat := 50
def MAX_RAR_SIZE : Nat := 100 * 1024 * 1024
def MAX_RAR_FILES : Nat := 50
def MAX_ARCHIVE_MEMBER_SIZE : Nat := 100 * 1024 * 1024

/-- Allowed extensions inside archives (`ARCHIVE_ALLOWED_EXTS`). -/
def ARCHIVE_ALLOWED_EXTS : List String :=
  [".jpg", ".jpeg", ".png", ".heic", ".heif", ".gif", ".tiff", ".tif", ".bmp",
   ".pdf", ".txt", ".pages", ".numbers", ".xlsx", ".xls", ".csv", ".json", ".py",
   ".html", ".cms", ".css", ".eml", ".mbox", ".rtf", ".md", ".markdown", ".odt",
   ".epub", ".docx", ".doc", ".pptx", ".ppt"]

/-- Outputs of recursively processing one extracted member. -/
structure ChildOut where
  text : String
  images : List String
  tables : List String
deriving DecidableEq

/-- One archive member as enumerated by the container library. -/
structure ZMember where
  name : String
  size : Nat
  corrupt : Bool
deriving DecidableEq

/-- Accumulated state of one unpacker invocation: the unit's text,
merged images/tables, the files written under the extraction root (in
order), the count of members that yielded usable output, and the number
of loop iterations executed (the member-count quota consumption). -/
structure ZState where
  text : String
  images : List String
  tables : List String
  written : List String
  useful : Nat
  visited : Nat
deriving DecidableEq

/-- Result of one unpacker invocation (same shape as the final state). -/
structure ZipResult where
  text : String
  images : List String
  tables : List String
  written : List String
  useful : Nat
  visited : Nat
deriving DecidableEq

def initZState : ZState := ⟨"", [], [], [], 0, 0⟩

def archiveSkipMsg (size limit : Nat) : String :=
  "(archive skipped: size " ++ Nat.repr size ++ " B > " ++ Nat.repr limit ++
    " B limit)"

def memberSkipMsg (name : String) (size limit : Nat) : String :=
  "(member skipped due to size limit: " ++ name ++ " size " ++ Nat.repr size ++
    " B > " ++ Nat.repr limit ++ " B)"

def zipCorruptMsg : String := "(zip archive corrupted or unreadable)"

def zipEmptyMsg : String := "(zip contains no supported documents or images)"

def extractedHeader (name : String) : String :=
  "\n===== [Extracted: " ++ name ++ "] =====\n"

/-- Model of `_ensure_unique_path`: append `_1`, `_2`, ... before the
extension until the candidate does not exist (`fs` is the set of existing
paths; the search is bounded, which suffices since `fs` is finite). -/
def ensure_unique_path (fs : List String) (p : String) : String :=
  if p ∈ fs then
    match (List.range (fs.length + 1)).findSome? (fun i =>
      let cand := (splitext p).1 ++ "_" ++ Nat.repr (i + 1) ++ (splitext p).2
      if cand ∈ fs then none else some cand) with
    | some c => c
    | none => p
  else p

/-- Destination path for a member: sanitized join under the root, with a
collision against an existing path resolved by `_ensure_unique_path`. -/
def zipDest (root : String) (fsAll : List String) (name : String) : String :=
  let d := safe_join_path root name
  if d ∈ fsAll then ensure_unique_path fsAll d else d

/-- One iteration of the `_process_generic_zip` member loop.  The `Bool`
of the result is `true` when the iteration raised outside the inner
`try` (corrupt member data during the stream copy), which aborts the
whole enumeration.  Note that the destination file is created by
`open(dest_path, "wb")` before the copy, so an aborting member still
leaves a (partial) file behind. -/
def zipStep (root : String) (fs0 : List String) (child : String → Option ChildOut)
    (st : ZState) (m : ZMember) : ZState × Bool :=
  let st := { st with visited := st.visited + 1 }
  if m.name.data.getLast? = some '/' then (st, false)
  else if toLowerStr (splitext m.name).2 ∈ ARCHIVE_ALLOWED_EXTS then
    if m.size > MAX_ARCHIVE_MEMBER_SIZE then
      ({ st with text := st.text ++ "\n" ++
          memberSkipMsg m.name m.size MAX_ARCHIVE_MEMBER_SIZE ++ "\n" }, false)
    else
      let dest := zipDest root (fs0 ++ st.written) m.name
      let st := { st with written := st.written ++ [dest] }
      if m.corrupt then (st, true)
      else
        match child dest with
        | none => (st, false)
        | some c =>
          ({ st with
              useful := st.useful + 1
              text := st.text ++ extractedHeader m.name ++ c.text ++ "\n"
              images := st.images ++ c.images
              tables := st.tables ++ c.tables }, false)
  else (st, false)

/-- The member loop, aborting as soon as a step raises. -/
def zipLoop (root : String) (fs0 : List String) (child : String → Option ChildOut) :
    ZState → List ZMember → ZState × Bool
  | st, [] => (st, false)
  | st, m :: ms =>
    match zipStep root fs0 child st m with
    | (st2, true) => (st2, true)
    | (st2, false) => zipLoop root fs0 child st2 ms

/-- Model of `_process_generic_zip`.  `fileName`/`fileSize` are the
`Document`'s staged name and on-disk size; `openOk` is whether
`zipfile.ZipFile` opens and lists the container; `members` its native
listing; `fs0` the pre-existing filesystem paths; `child` the recursive
processing of an extracted file. -/
def process_generic_zip (fileName : String) (fileSize : Nat) (mediaDir : String)
    (openOk : Bool) (members : List ZMember) (fs0 : List String)
    (child : String → Option ChildOut) : ZipResult :=
  if fileSize > MAX_ZIP_SIZE then
    { text := archiveSkipMsg fileSize MAX_ZIP_SIZE, images := [], tables := [],
      written := [], useful := 0, visited := 0 }
  else if openOk then
    let root := osJoin mediaDir ["unzipped", (splitext fileName).1]
    match zipLoop root fs0 child initZState (members.take MAX_ZIP_FILES) with
    | (st, true) =>
      { text := zipCorruptMsg, images := st.images, tables := st.tables,
        written := st.written, useful := st.useful, visited := st.visited }
    | (st, false) =>
      if st.useful = 0 then
        { text := zipEmptyMsg, images := st.images, tables := st.tables,
          written := st.written, useful := st.useful, visited := st.visited }
      else
        { text := st.text, images := st.images, tables := st.tables,
          written := st.written, useful := st.useful, visited := st.visited }
  else
    { text := zipCorruptMsg, images := [], tables := [], written := [],
      useful := 0, visited := 0 }

/-- Classified outcome of opening a RAR container. -/
inductive RarOpenErr
  | password
  | badrar
  | other (e : String)
deriving DecidableEq

def rarUnavailableMsg : String := "(rarfile module not installed; .rar skipped)"

def rarPasswordMsg : String := "(rar is password-protected; skipped)"

def rarCorruptMsg : String := "(rar archive corrupted or unreadable)"

def rarEmptyMsg : String := "(rar contains no supported documents or images)"

def rarOpenErrMsg : RarOpenErr → String
  | RarOpenErr.password => rarPasswordMsg
  | RarOpenErr.badrar => rarCorruptMsg
  | RarOpenErr.other e => "(rar open failed: " ++ e ++ ")"

/-- One iteration of the `_process_generic_rar` member loop; the RAR
variant treats a declared size of 0 as unknown and lets it through. -/
def rarStep (root : String) (fs0 : List String) (child : String → Option ChildOut)
    (st : ZState) (m : ZMember) : ZState × Bool :=
  let st := { st with visited := st.visited + 1 }
  if m.name.data.getLast? = some '/' then (st, false)
  else if toLowerStr (splitext m.name).2 ∈ ARCHIVE_ALLOWED_EXTS then
    if m.size ≠ 0 ∧ m.size > MAX_ARCHIVE_MEMBER_SIZE then
      ({ st with text := st.text ++ "\n" ++
          memberSkipMsg m.name m.size MAX_ARCHIVE_MEMBER_SIZE ++ "\n" }, false)
    else
      let dest := zipDest root (fs0 ++ st.written) m.name
      let st := { st with written := st.written ++ [dest] }
      if m.corrupt then (st, true)
      else
        match child dest with
        | none => (st, false)
        | some c =>
          ({ st with
              useful := st.useful + 1
              text := st.text ++ extractedHeader m.name ++ c.text ++ "\n"
              images := st.images ++ c.images
              tables := st.tables ++ c.tables }, false)
  else (st, false)

def rarLoop (root : String) (fs0 : List String) (child : String → Option ChildOut) :
    ZState → List ZMember → ZState × Bool
  | st, [] => (st, false)
  | st, m :: ms =>
    match rarStep root fs0 child st m with
    | (st2, true) => (st2, true)
    | (st2, false) => rarLoop root fs0 child st2 ms

/-- Model of `_process_generic_rar` (a mid-loop read failure is reported
through the same `except` clause; `rarfile` raises `BadRarFile` on
corrupt data, so the abort diagnostic is the generic corruption one). -/
def process_generic_rar (fileName : String) (fileSize : Nat) (mediaDir : String)
    (rarAvailable : Bool) (openErr : Option RarOpenErr) (members : List ZMember)
    (fs0 : List String) (child : String → Option ChildOut) : ZipResult :=
  if ¬rarAvailable then
    { text := rarUnavailableMsg, images := [], tables := [], written := [],
      useful := 0, visited := 0 }
  else if fileSize > MAX_RAR_SIZE then
    { text := archiveSkipMsg fileSize MAX_RAR_SIZE, images := [], tables := [],
      written := [], useful := 0, visited := 0 }
  else
    match openErr with
    | some e =>
      { text := rarOpenErrMsg e, images := [], tables := [], written := [],
        useful := 0, visited := 0 }
    | none =>
      let root := osJoin mediaDir ["unrarred", (splitext fileName).1]
      match rarLoop root fs0 child initZState (members.take MAX_RAR_FILES) with
      | (st, true) =>
        { text := rarCorruptMsg, images := st.images, tables := st.tables,
          written := st.written, useful := st.useful, visited := st.visited }
      | (st, false) =>
        if st.useful = 0 then
          { text := rarEmptyMsg, images := st.images, tables := st.tables,
            written := st.written, useful := st.useful, visited := st.visited }
        else
          { text := st.text, images := st.images, tables := st.tables,
            written := st.written, useful := st.useful, visited := st.visited }

/-! ### Quota lemmas for the unpacker loops -/

theorem zipStep_written_le (root : String) (fs0 : List String)
    (child : String → Option ChildOut) (st : ZState) (m : ZMember) :
    ((zipStep root fs0 child st m).1).written.length ≤ st.written.length + 1 := by
  unfold zipStep
  dsimp only
  split
  · simp
  · split
    · split
      · simp
      · split
        · simp
        · split <;> simp
    · simp

theorem zipLoop_written_le (root : String) (fs0 : List String)
    (child : String → Option ChildOut) :
    ∀ (ms : List ZMember) (st : ZState),
      ((zipLoop root fs0 child st ms).1).written.length ≤
        st.written.length + ms.length := by
  intro ms
  induction ms with
  | nil => intro st; simp [zipLoop]
  | cons m rest ih =>
    intro st
    simp only [zipLoop]
    rcases hstep : zipStep root fs0 child st m with ⟨st2, b⟩
    have hle := zipStep_written_le root fs0 child st m
    rw [hstep] at hle
    dsimp only at hle
    cases b
    · dsimp only
      have := ih st2
      simp only [List.length_cons]
      omega
    · dsimp only
      simp only [List.length_cons]
      omega

theorem rarStep_written_le (root : String) (fs0 : List String)
    (child : String → Option ChildOut) (st : ZState) (m : ZMember) :
    ((rarStep root fs0 child st m).1).written.length ≤ st.written.length + 1 := by
  unfold rarStep
  dsimp only
  split
  · simp
  · split
    · split
      · simp
      · split
        · simp
        · split <;> simp
    · simp

theorem rarLoop_written_le (root : String) (fs0 : List String)
    (child : String → Option ChildOut) :
    ∀ (ms : List ZMember) (st : ZState),
      ((rarLoop root fs0 child st ms).1).written.length ≤
        st.written.length + ms.length := by
  intro ms
  induction ms with
  | nil => intro st; simp [rarLoop]
  | cons m rest ih =>
    intro st
    simp only [rarLoop]
    rcases hstep : rarStep root fs0 child st m with ⟨st2, b⟩
    have hle := rarStep_written_le root fs0 child st m
    rw [hstep] at hle
    dsimp only at hle
    cases b
    · dsimp only
      have := ih st2
      simp only [List.length_cons]
      omega
    · dsimp only
      simp only [List.length_cons]
      omega

/-- C3. For every archive (ZIP or RAR), at most `MAX_ZIP_FILES` /
`MAX_RAR_FILES` (= 50) members are processed and at most that many files
are written under the extraction root; the run is identical to the run on
only the first 50 entries of the native listing, so entries beyond the
first 50 have no observable effect (log-only, not errors). -/
theorem c3_member_quota (fileName : String) (fileSize : Nat) (mediaDir : String)
    (openOk : Bool) (members : List ZMember) (fs0 : List String)
    (child : String → Option ChildOut) (rarAvailable : Bool)
    (openErr : Option RarOpenErr) :
    ((process_generic_zip fileName fileSize mediaDir openOk members fs0
          child).written.length ≤ MAX_ZIP_FILES ∧
      process_generic_zip fileName fileSize mediaDir openOk members fs0 child =
        process_generic_zip fileName fileSize mediaDir openOk
          (members.take MAX_ZIP_FILES) fs0 child) ∧
    ((process_generic_rar fileName fileSize mediaDir rarAvailable openErr
          members fs0 child).written.length ≤ MAX_RAR_FILES ∧
      process_generic_rar fileName fileSize mediaDir rarAvailable openErr
          members fs0 child =
        process_generic_rar fileName fileSize mediaDir rarAvailable openErr
          (members.take MAX_RAR_FILES) fs0 child) := by
  refine ⟨⟨?_, ?_⟩, ?_, ?_⟩
  · unfold process_generic_zip
    split
    · simp
    · split
      · dsimp only
        rcases hloop : zipLoop (osJoin mediaDir ["unzipped", (splitext fileName).1])
          fs0 child initZState (members.take MAX_ZIP_FILES) with ⟨st, b⟩
        have hle := zipLoop_written_le (osJoin mediaDir ["unzipped", (splitext fileName).1])
          fs0 child (members.take MAX_ZIP_FILES) initZState
        rw [hloop] at hle
        have htk : (members.take MAX_ZIP_FILES).length ≤ MAX_ZIP_FILES := by
          simp
        simp only [initZState, List.length_nil] at hle
        cases b
        · dsimp only
          split <;> dsimp only <;> omega
        · dsimp only
          omega
      · simp
  · unfold process_generic_zip
    rw [List.take_take, Nat.min_self]
  · unfold process_generic_rar
    split
    · simp
    · split
      · simp
      · split
        · simp
        · dsimp only
          rcases hloop : rarLoop (osJoin mediaDir ["unrarred", (splitext fileName).1])
            fs0 child initZState (members.take MAX_RAR_FILES) with ⟨st, b⟩
          have hle := rarLoop_written_le (osJoin mediaDir ["unrarred", (splitext fileName).1])
            fs0 child (members.take MAX_RAR_FILES) initZState
          rw [hloop] at hle
          have htk : (members.take MAX_RAR_FILES).length ≤ MAX_RAR_FILES := by
            simp
          simp only [initZState, List.length_nil] at hle
          cases b
          · dsimp only
            split <;> dsimp only <;> omega
          · dsimp only
            omega
  · unfold process_generic_rar
    rw [List.take_take, Nat.min_self]

/-- C4 counterexample: an archive whose first 50 entries are unsupported
`.bin` files followed by one supported `.txt` member extracts nothing at
all (the unsupported entries consumed the whole member quota), whereas
with only 49 unsupported entries the `.txt` member is extracted — so
skipped non-matching members do reduce the number of allow-listed members
that can still be processed. -/
theorem c4_counterexample_skips_consume_quota :
    process_generic_zip "a.zip" 0 "m" true
        (List.replicate 50 ⟨"a.bin", 1, false⟩ ++ [⟨"b.txt", 1, false⟩]) []
        (fun _ => some ⟨"content", [], []⟩) =
      ⟨zipEmptyMsg, [], [], [], 0, 50⟩ ∧
    process_generic_zip "a.zip" 0 "m" true
        (List.replicate 49 ⟨"a.bin", 1, false⟩ ++ [⟨"b.txt", 1, false⟩]) []
        (fun _ => some ⟨"content", [], []⟩) =
      ⟨"\n===== [Extracted: b.txt] =====\ncontent\n", [], [],
        ["m/unzipped/a/b.txt"], 1, 50⟩ := by
  constructor <;> rfl

/-- C4 (amended). A directory entry or a member whose extension is not in
the allow-list is skipped with no effect on the unit's text, images,
tables, or written files — but it does occupy one of the 50 iteration
slots (the quota applies to the first 50 entries of the native listing
regardless of type), as the counterexample shows. -/
theorem c4_amended_skipped_member_consumes_slot (root : String)
    (fs0 : List String) (child : String → Option ChildOut) (st : ZState)
    (m : ZMember) (hnd : ¬ m.name.data.getLast? = some '/')
    (hext : toLowerStr (splitext m.name).2 ∉ ARCHIVE_ALLOWED_EXTS) :
    zipStep root fs0 child st m =
      ({ st with visited := st.visited + 1 }, false) := by
  unfold zipStep
  dsimp only
  rw [if_neg hnd, if_neg hext]

/-- Witness for C4 (amended): a `.bin` member leaves the state unchanged
except for the consumed iteration slot. -/
theorem c4_amended_skipped_member_consumes_slot_witness :
    zipStep "r" [] (fun _ => none) initZState ⟨"a.bin", 1, false⟩ =
      ({ initZState with visited := initZState.visited + 1 }, false) :=
  c4_amended_skipped_member_consumes_slot "r" [] (fun _ => none) initZState
    ⟨"a.bin", 1, false⟩ (by decide) (by decide)

/-- C5. An archive whose size strictly exceeds `MAX_ZIP_SIZE` makes the
unpacker short-circuit: the text becomes the fixed skip diagnostic, no
member is visited, and nothing is written under the extraction root
(the result does not depend on the members at all). -/
theorem c5_oversized_archive_short_circuits (fileName mediaDir : String)
    (fileSize : Nat) (openOk : Bool) (members : List ZMember)
    (fs0 : List String) (child : String → Option ChildOut)
    (h : fileSize > MAX_ZIP_SIZE) :
    process_generic_zip fileName fileSize mediaDir openOk members fs0 child =
      ⟨archiveSkipMsg fileSize MAX_ZIP_SIZE, [], [], [], 0, 0⟩ := by
  unfold process_generic_zip
  rw [if_pos h]

/-- Witness for C5: size `MAX_ZIP_SIZE + 1` short-circuits even though a
supported member is present. -/
theorem c5_oversized_archive_short_circuits_witness :
    process_generic_zip "a.zip" (MAX_ZIP_SIZE + 1) "m" true
        [⟨"b.txt", 1, false⟩] [] (fun _ => some ⟨"content", [], []⟩) =
      ⟨archiveSkipMsg (MAX_ZIP_SIZE + 1) MAX_ZIP_SIZE, [], [], [], 0, 0⟩ :=
  c5_oversized_archive_short_circuits "a.zip" "m" (MAX_ZIP_SIZE + 1) true
    [⟨"b.txt", 1, false⟩] [] (fun _ => some ⟨"content", [], []⟩) (by omega)

/-- C6. In an archive holding an oversized allow-listed member followed by
a small allow-listed member, the oversized member is skipped with an
inline annotation appended to the unit's text, while the small member is
still stream-copied to its sanitized destination and its recursive output
(text wrapped with the delimiter, images, tables) is merged into the
parent. -/
theorem c6_oversized_member_annotated_small_extracted
    (fileName mediaDir root : String) (fileSize : Nat) (fs0 : List String)
    (child : String → Option ChildOut) (big small : ZMember) (c : ChildOut)
    (hroot : root = osJoin mediaDir ["unzipped", (splitext fileName).1])
    (hsize : fileSize ≤ MAX_ZIP_SIZE)
    (hbigd : ¬ big.name.data.getLast? = some '/')
    (hbige : toLowerStr (splitext big.name).2 ∈ ARCHIVE_ALLOWED_EXTS)
    (hbigs : big.size > MAX_ARCHIVE_MEMBER_SIZE)
    (hsd : ¬ small.name.data.getLast? = some '/')
    (hse : toLowerStr (splitext small.name).2 ∈ ARCHIVE_ALLOWED_EXTS)
    (hss : ¬ small.size > MAX_ARCHIVE_MEMBER_SIZE)
    (hsc : small.corrupt = false)
    (hfresh : safe_join_path root small.name ∉ fs0)
    (hchild : child (safe_join_path root small.name) = some c) :
    process_generic_zip fileName fileSize mediaDir true [big, small] fs0 child =
      ⟨"" ++ "\n" ++ memberSkipMsg big.name big.size MAX_ARCHIVE_MEMBER_SIZE ++
          "\n" ++ extractedHeader small.name ++ c.text ++ "\n",
        c.images, c.tables, [safe_join_path root small.name], 1, 2⟩ := by
  have htake : (([big, small] : List ZMember).take MAX_ZIP_FILES) = [big, small] := rfl
  have hstep1 : zipStep root fs0 child initZState big =
      ({ initZState with
          text := initZState.text ++ "\n" ++
            memberSkipMsg big.name big.size MAX_ARCHIVE_MEMBER_SIZE ++ "\n"
          visited := initZState.visited + 1 }, false) := by
    unfold zipStep
    dsimp only
    rw [if_neg hbigd, if_pos hbige, if_pos hbigs]
  have hdest : zipDest root (fs0 ++ initZState.written) small.name =
      safe_join_path root small.name := by
    unfold zipDest
    dsimp only
    rw [show fs0 ++ initZState.written = fs0 by simp [initZState], if_neg hfresh]
  unfold process_generic_zip
  rw [if_neg (by omega : ¬ fileSize > MAX_ZIP_SIZE)]
  rw [if_pos rfl]
  dsimp only
  rw [← hroot, htake]
  simp only [zipLoop]
  rw [hstep1]
  dsimp only
  unfold zipStep
  dsimp only
  rw [if_neg hsd, if_pos hse, if_neg hss, hdest, hsc]
  rw [if_neg (by simp : ¬ (false = true))]
  rw [hchild]
  dsimp only
  rw [if_neg (show ¬ (initZState.useful + 1 = 0) by simp [initZState])]
  rfl

/-- Witness for C6: a 200 MB `.pdf` member is skipped with the inline
size annotation while the 3-byte `.txt` member is extracted and merged. -/
theorem c6_oversized_member_annotated_small_extracted_witness :
    process_generic_zip "a.zip" 7 "m" true
        [⟨"big.pdf", 200 * 1024 * 1024, false⟩, ⟨"s.txt", 3, false⟩] []
        (fun p => if p = "m/unzipped/a/s.txt" then
          some ⟨"T", ["images/x.png"], ["tables/y.csv"]⟩ else none) =
      ⟨"" ++ "\n" ++ memberSkipMsg "big.pdf" (200 * 1024 * 1024)
          MAX_ARCHIVE_MEMBER_SIZE ++ "\n" ++ extractedHeader "s.txt" ++ "T" ++
          "\n",
        ["images/x.png"], ["tables/y.csv"], ["m/unzipped/a/s.txt"], 1, 2⟩ :=
  c6_oversized_member_annotated_small_extracted "a.zip" "m" "m/unzipped/a" 7 []
    (fun p => if p = "m/unzipped/a/s.txt" then
      some ⟨"T", ["images/x.png"], ["tables/y.csv"]⟩ else none)
    ⟨"big.pdf", 200 * 1024 * 1024, false⟩ ⟨"s.txt", 3, false⟩
    ⟨"T", ["images/x.png"], ["tables/y.csv"]⟩
    (by rfl) (by decide) (by decide) (by decide) (by decide) (by decide)
    (by decide) (by decide) (by decide) (by decide) (by rfl)

/-- C7 counterexample: one supported member whose recursive processing
raises (modelled by `child` returning `none`).  The failure is caught,
but the parent's text ends up being only the generic placeholder — the
failure is recorded in the log alone, with no inline annotation naming
the member in the text content, contrary to the claim. -/
theorem c7_counterexample_nested_failure_not_annotated :
    process_generic_zip "a.zip" 0 "m" true [⟨"doc.txt", 5, false⟩] []
        (fun _ => none) =
      ⟨zipEmptyMsg, [], [], ["m/unzipped/a/doc.txt"], 0, 1⟩ := by rfl

/-- C7 (amended). When recursive processing of an extracted member fails
with an exception, the failure is caught inside the archive unpacker and
never propagates out of the parent extraction unit, but it is recorded
only as a log line: the parent's text content, images, and tables are
unchanged by the failed member (only the already-extracted file on disk
and the iteration count remain). -/
theorem c7_amended_nested_failure_caught_log_only (root : String)
    (fs0 : List String) (child : String → Option ChildOut) (st : ZState)
    (m : ZMember) (hnd : ¬ m.name.data.getLast? = some '/')
    (hext : toLowerStr (splitext m.name).2 ∈ ARCHIVE_ALLOWED_EXTS)
    (hsz : ¬ m.size > MAX_ARCHIVE_MEMBER_SIZE) (hcor : m.corrupt = false)
    (hchild : child (zipDest root (fs0 ++ st.written) m.name) = none) :
    zipStep root fs0 child st m =
      ({ st with
          written := st.written ++ [zipDest root (fs0 ++ st.written) m.name]
          visited := st.visited + 1 }, false) := by
  unfold zipStep
  dsimp only
  rw [if_neg hnd, if_pos hext, if_neg hsz, hcor]
  rw [if_neg (by simp : ¬ (false = true))]
  rw [hchild]

/-- Witness for C7 (amended): the failed `.txt` member changes nothing in
the unit state except the written file and the iteration count. -/
theorem c7_amended_nested_failure_caught_log_only_witness :
    zipStep "r" [] (fun _ => none) initZState ⟨"doc.txt", 5, false⟩ =
      ({ initZState with
          written := initZState.written ++ [zipDest "r" ([] ++ initZState.written) "doc.txt"]
          visited := initZState.visited + 1 }, false) :=
  c7_amended_nested_failure_caught_log_only "r" [] (fun _ => none) initZState
    ⟨"doc.txt", 5, false⟩ (by decide) (by decide) (by decide) (by decide)
    (by rfl)

/-- C9 counterexample: corruption detected at the second member, after a
first member was already extracted and merged.  The text becomes the
corruption diagnostic, but one extracted file plus the partially-written
second file remain under the extraction root, and the first member's
images and tables remain recorded in the unit — contradicting the claim
that nothing is written and nothing is recorded. -/
theorem c9_counterexample_partway_corruption :
    process_generic_zip "a.zip" 0 "m" true
        [⟨"a.txt", 1, false⟩, ⟨"b.txt", 1, true⟩] []
        (fun _ => some ⟨"ok", ["images/i.png"], ["tables/t.csv"]⟩) =
      ⟨zipCorruptMsg, ["images/i.png"], ["tables/t.csv"],
        ["m/unzipped/a/a.txt", "m/unzipped/a/b.txt"], 1, 2⟩ := by rfl

/-- C9 (amended). A container unreadable at open yields only the
immediate fail-soft diagnostic, with no files written and no images or
tables recorded: for ZIP the fixed corruption message, for RAR the
classified message (password-protected, corrupt, or other open failure).
When corruption is detected partway through member enumeration — in
either unpacker — the unit's text content is likewise replaced by the
diagnostic alone (previously appended annotations are discarded), but
the files already written under the extraction root and the images and
tables already merged from earlier members are retained. -/
theorem c9_amended_corrupt_container (fileName mediaDir : String)
    (fileSize : Nat) (members : List ZMember) (fs0 : List String)
    (child : String → Option ChildOut)
    (hsize : fileSize ≤ MAX_ZIP_SIZE) :
    (process_generic_zip fileName fileSize mediaDir false members fs0 child =
      ⟨zipCorruptMsg, [], [], [], 0, 0⟩) ∧
    (∀ st : ZState,
      zipLoop (osJoin mediaDir ["unzipped", (splitext fileName).1]) fs0 child
          initZState (members.take MAX_ZIP_FILES) = (st, true) →
      process_generic_zip fileName fileSize mediaDir true members fs0 child =
        ⟨zipCorruptMsg, st.images, st.tables, st.written, st.useful,
          st.visited⟩) ∧
    (∀ e : RarOpenErr,
      process_generic_rar fileName fileSize mediaDir true (some e) members
          fs0 child =
        ⟨rarOpenErrMsg e, [], [], [], 0, 0⟩) ∧
    (∀ st : ZState,
      rarLoop (osJoin mediaDir ["unrarred", (splitext fileName).1]) fs0 child
          initZState (members.take MAX_RAR_FILES) = (st, true) →
      process_generic_rar fileName fileSize mediaDir true none members fs0
          child =
        ⟨rarCorruptMsg, st.images, st.tables, st.written, st.useful,
          st.visited⟩) := by
  refine ⟨?_, ?_, ?_, ?_⟩
  · unfold process_generic_zip
    rw [if_neg (by omega : ¬ fileSize > MAX_ZIP_SIZE)]
    rw [if_neg (by simp : ¬ (false = true))]
  · intro st hloop
    unfold process_generic_zip
    rw [if_neg (by omega : ¬ fileSize > MAX_ZIP_SIZE)]
    rw [if_pos rfl]
    simp only [hloop]
  · intro e
    unfold process_generic_rar
    rw [if_neg (by simp : ¬¬(true = true))]
    rw [if_neg (show ¬ fileSize > MAX_RAR_SIZE by
      have heq : MAX_RAR_SIZE = MAX_ZIP_SIZE := rfl
      omega)]
  · intro st hloop
    unfold process_generic_rar
    rw [if_neg (by simp : ¬¬(true = true))]
    rw [if_neg (show ¬ fileSize > MAX_RAR_SIZE by
      have heq : MAX_RAR_SIZE = MAX_ZIP_SIZE := rfl
      omega)]
    simp only [hloop]

/-- Witness for C9 (amended): a ZIP that fails to open writes nothing; a
ZIP whose single member is corrupt keeps the partially-written file while
showing only the diagnostic text; a password-protected RAR yields its
distinct diagnostic with nothing written; a RAR whose single member is
corrupt behaves like the ZIP case. -/
theorem c9_amended_corrupt_container_witness :
    (process_generic_zip "a.zip" 0 "m" false [⟨"a.txt", 1, true⟩] []
        (fun _ => none) = ⟨zipCorruptMsg, [], [], [], 0, 0⟩) ∧
    (process_generic_zip "a.zip" 0 "m" true [⟨"a.txt", 1, true⟩] []
        (fun _ => none) =
      ⟨zipCorruptMsg, [], [], ["m/unzipped/a/a.txt"], 0, 1⟩) ∧
    (process_generic_rar "a.zip" 0 "m" true (some RarOpenErr.password)
        [⟨"a.txt", 1, true⟩] [] (fun _ => none) =
      ⟨rarOpenErrMsg RarOpenErr.password, [], [], [], 0, 0⟩) ∧
    (process_generic_rar "a.zip" 0 "m" true none [⟨"a.txt", 1, true⟩] []
        (fun _ => none) =
      ⟨rarCorruptMsg, [], [], ["m/unrarred/a/a.txt"], 0, 1⟩) := by
  have h := c9_amended_corrupt_container "a.zip" "m" 0 [⟨"a.txt", 1, true⟩] []
    (fun _ => none) (by omega)
  exact ⟨h.1, h.2.1 ⟨"", [], [], ["m/unzipped/a/a.txt"], 0, 1⟩ (by rfl),
    h.2.2.1 RarOpenErr.password,
    h.2.2.2 ⟨"", [], [], ["m/unrarred/a/a.txt"], 0, 1⟩ (by rfl)⟩

/-! ## Page-limit resolution (`_get_page_limit`, used by `_process_pdf`) -/

def MAX_PAGES_DEFAULT : Nat := 10

/-- Model of Python `int(str)` on the environment value: optional
surrounding whitespace, optional sign, then at least one decimal digit
(digit-group underscores are not modelled; none of the claims need
them). -/
def pyIntParse (s : String) : Option Int :=
  let t := ((s.data.dropWhile Char.isWhitespace).reverse.dropWhile
    Char.isWhitespace).reverse
  match t with
  | '-' :: ds =>
    if ds ≠ [] ∧ ds.all Char.isDigit then some (-(digitsVal ds : Int)) else none
  | '+' :: ds =>
    if ds ≠ [] ∧ ds.all Char.isDigit then some (digitsVal ds) else none
  | ds =>
    if ds ≠ [] ∧ ds.all Char.isDigit then some (digitsVal ds) else none

/-- Model of `_get_page_limit()`.  `disableEnv` is
`os.getenv(DISABLE_PAGE_LIMIT, "")` and `customEnv` is
`os.getenv(MAX_DOCUMENT_PAGES)` (`none` when unset).  Returns `none` when
limits are disabled, otherwise the effective positive limit. -/
def get_page_limit (disableEnv : String) (customEnv : Option String) :
    Option Nat :=
  if toLowerStr disableEnv ∈ (["true", "1", "yes", "on"] : List String) then
    none
  else
    match customEnv with
    | some s =>
      if s.data ≠ [] then
        match pyIntParse s with
        | some k => if 0 < k then some k.toNat else some MAX_PAGES_DEFAULT
        | none => some MAX_PAGES_DEFAULT
      else some MAX_PAGES_DEFAULT
    | none => some MAX_PAGES_DEFAULT

/-- Model of the page-count logic of `_process_pdf` (and of the
sheet-count logic of the spreadsheet handlers, which is identical):
how many pages are processed and whether the `page_limit_reached`
metadata flag is set. -/
def pdf_pages_processed (totalPages : Nat) (limit : Option Nat) : Nat × Bool :=
  match limit with
  | some l => (min totalPages l, decide (totalPages > l))
  | none => (totalPages, false)

/-- C8. Page-limit behavior: (a) any recognised disable-flag value turns
the limit off, and a 25-page document is then fully processed with no
flag; (b) with the effective limit 10, a 25-page document processes
exactly pages 1–10 and the limit-reached flag is set; (c) an explicit
positive custom limit wins over the default; (d) with no custom value
(or, per the counterpart branch of the parser, an invalid one) the
built-in default 10 applies.  The disable flag takes precedence over any
custom value. -/
theorem c8_page_limit_resolution :
    (∀ d c, toLowerStr d ∈ (["true", "1", "yes", "on"] : List String) →
      get_page_limit d c = none ∧ pdf_pages_processed 25 none = (25, false)) ∧
    pdf_pages_processed 25 (some 10) = (10, true) ∧
    (∀ d s k, toLowerStr d ∉ (["true", "1", "yes", "on"] : List String) →
      s.data ≠ [] → pyIntParse s = some k → 0 < k →
      get_page_limit d (some s) = some k.toNat) ∧
    (∀ d, toLowerStr d ∉ (["true", "1", "yes", "on"] : List String) →
      get_page_limit d none = some MAX_PAGES_DEFAULT) ∧
    (∀ d s, toLowerStr d ∉ (["true", "1", "yes", "on"] : List String) →
      s.data ≠ [] → pyIntParse s = none →
      get_page_limit d (some s) = some MAX_PAGES_DEFAULT) := by
  refine ⟨?_, by rfl, ?_, ?_, ?_⟩
  · intro d c hd
    exact ⟨by unfold get_page_limit; rw [if_pos hd], by rfl⟩
  · intro d s k hd hne hparse hk
    unfold get_page_limit
    rw [if_neg hd]
    dsimp only
    rw [if_pos hne, hparse]
    dsimp only
    rw [if_pos hk]
  · intro d hd
    unfold get_page_limit
    rw [if_neg hd]
  · intro d s hd hne hparse
    unfold get_page_limit
    rw [if_neg hd]
    dsimp only
    rw [if_pos hne, hparse]

/-- Witness for C8: disable flag set → no limit and 25 pages, no flag;
custom limit "10" in force → pages 1–10 with the flag; custom "7" wins
over the default; unset → default 10; invalid "abc" → default 10. -/
theorem c8_page_limit_resolution_witness :
    (get_page_limit "true" (some "99") = none ∧
      pdf_pages_processed 25 none = (25, false)) ∧
    pdf_pages_processed 25 (some 10) = (10, true) ∧
    get_page_limit "" (some "7") = some 7 ∧
    get_page_limit "" none = some MAX_PAGES_DEFAULT ∧
    get_page_limit "" (some "abc") = some MAX_PAGES_DEFAULT := by
  have h := c8_page_limit_resolution
  refine ⟨h.1 "true" (some "99") (by decide), h.2.1, ?_, h.2.2.2.1 "" (by decide), ?_⟩
  · have := h.2.2.1 "" "7" 7 (by decide) (by decide) (by decide) (by decide)
    simpa using this
  · exact h.2.2.2.2 "" "abc" (by decide) (by decide) (by decide)

/-! ## `Document.__init__` path normalization -/

/-- Model of Python `str.startswith` as used in the constructor. -/
def startsWithPy (s pre : String) : Bool :=
  pre.data.isPrefixOf s.data

/-- Strip trailing non-alphanumeric characters from the extension, as the
constructor does for malformed names such as `x}.eml`. -/
def stripTrailingNonAlnum (s : String) : String :=
  ⟨(s.data.reverse.dropWhile (fun c => !c.isAlphanum)).reverse⟩

/-- The fields of a `Document` set by `__init__` that the claims are
about.  `sizeOf` models `os.path.getsize` guarded by `os.path.exists`:
`none` means the path does not exist. -/
structure DocInit where
  filePath : String
  fileName : String
  fileExt : String
  fileSize : Nat
deriving DecidableEq

/-- Model of `Document.__init__(file_path, media_dir=...)` (the
`os.makedirs` side effect is ignored). -/
def document_init (mediaDir rawPath : String) (sizeOf : String → Option Nat) :
    DocInit :=
  let fp := if startsWithPy rawPath mediaDir then rawPath
    else pyJoin1 mediaDir (basenameStr rawPath)
  let name := basenameStr fp
  let ext := stripTrailingNonAlnum (toLowerStr (splitext name).2)
  { filePath := fp, fileName := name, fileExt := ext,
    fileSize := (sizeOf fp).getD 0 }

/-- C10. When the given path does not start with the media-directory
prefix, the constructor silently rewrites the source path to
`media_dir/basename(path)` (all directory components are dropped), and
when the rewritten path does not exist the size is set to 0; the
constructor is a total function of its inputs, so it never raises on a
missing file. -/
theorem c10_document_init_rewrites_path (mediaDir rawPath : String)
    (sizeOf : String → Option Nat)
    (h1 : startsWithPy rawPath mediaDir = false)
    (h2 : sizeOf (pyJoin1 mediaDir (basenameStr rawPath)) = none) :
    (document_init mediaDir rawPath sizeOf).filePath =
      pyJoin1 mediaDir (basenameStr rawPath) ∧
    (document_init mediaDir rawPath sizeOf).fileSize = 0 := by
  unfold document_init
  rw [h1]
  rw [if_neg (by simp : ¬ (false = true))]
  refine ⟨rfl, ?_⟩
  show (sizeOf (pyJoin1 mediaDir (basenameStr rawPath))).getD 0 = 0
  rw [h2]
  rfl

/-- Witness for C10: a missing absolute path outside the media directory
is rewritten to the media directory plus its basename, with size 0. -/
theorem c10_document_init_rewrites_path_witness :
    (document_init "media_for_processing" "/tmp/dir/report.pdf"
        (fun _ => none)).filePath = "media_for_processing/report.pdf" ∧
    (document_init "media_for_processing" "/tmp/dir/report.pdf"
        (fun _ => none)).fileSize = 0 := by
  have h := c10_document_init_rewrites_path "media_for_processing"
    "/tmp/dir/report.pdf" (fun _ => none) (by decide) (by rfl)
  exact ⟨h.1.trans (by rfl), h.2⟩

end DocProc
